import Mathlib

/-!
Verification of the LegalDrishti frontend (document pipeline UI and chat widget).

The definitions below are a shallow embedding of the TypeScript sources:
Zustand store actions (`src/frontend/src/store/authStore.ts`, which also holds
the chat store and the pipeline store), the pipeline step components
(`ChunkingStep`, `MetadataStep`, `SummarizationStep`, `QAStep`, `PublishStep`)
and the standalone `LegalAssistant` chat component.  Network calls are made
explicit: an action takes the outcome of its fetch (success payload or
failure message) as an argument, and "a request is issued" is modelled by the
action producing a request value / a pending-request record.  JavaScript
string primitives used by the code (`trim`, `split(/\s+/)`, `split(/\n\n+/)`,
the markdown-stripping `replace` chain) are implemented over `List Char`
with JS semantics.
-/

namespace LegalDrishti

/-! ## JavaScript string primitives -/

/-- JS `\s` character class (ASCII whitespace plus the Unicode space
separators that JavaScript's `\s` matches). -/
def jsIsWhitespace (c : Char) : Bool :=
  c == ' ' || c == '\t' || c == '\n' || c == '\r' ||
  c.val == 11 || c.val == 12 ||
  c.val == 0xa0 || c.val == 0x1680 ||
  (0x2000 ≤ c.val && c.val ≤ 0x200a) ||
  c.val == 0x2028 || c.val == 0x2029 ||
  c.val == 0x202f || c.val == 0x205f || c.val == 0x3000 || c.val == 0xfeff

/-- JS `String.prototype.trim`: strip whitespace from both ends. -/
def jsTrim (s : String) : String :=
  String.mk (((s.data.dropWhile jsIsWhitespace).reverse.dropWhile jsIsWhitespace).reverse)

/-- Worker for `jsSplitWs`.  `cur` is the current token (reversed);
`inSep` records that we are inside a run of separator whitespace.
Mirrors JS `split(/\s+/)`: a leading run of whitespace yields a leading
empty token, a trailing run a trailing empty token, and `""` yields
`[""]`. -/
def splitWsGo : List Char → List Char → Bool → List (List Char)
  | [], _, true => [[]]
  | [], cur, false => [cur.reverse]
  | c :: cs, cur, true =>
    if jsIsWhitespace c then splitWsGo cs cur true
    else splitWsGo cs [c] false
  | c :: cs, cur, false =>
    if jsIsWhitespace c then cur.reverse :: splitWsGo cs [] true
    else splitWsGo cs (c :: cur) false

/-- JS `s.split(/\s+/)`. -/
def jsSplitWs (s : String) : List String :=
  (splitWsGo s.data [] false).map String.mk

/-- Worker for `jsSplitParas`: split at runs of two or more `'\n'`.
In `inSep` mode we are consuming the tail of a newline run; a separator is
entered only when the current character is `'\n'` and the next one is too. -/
def splitParasGo : List Char → List Char → Bool → List (List Char)
  | [], _, true => [[]]
  | [], cur, false => [cur.reverse]
  | c :: cs, cur, true =>
    if c = '\n' then splitParasGo cs cur true
    else splitParasGo cs [c] false
  | c :: cs, cur, false =>
    if c = '\n' ∧ cs.head? = some '\n' then cur.reverse :: splitParasGo cs [] true
    else splitParasGo cs (c :: cur) false

/-- JS `s.split(/\n\n+/)`. -/
def jsSplitParas (s : String) : List String :=
  (splitParasGo s.data [] false).map String.mk

/-! ## Pipeline data model (store types in `authStore.ts`) -/

/-- `DocumentStatus` union type of the pipeline store. -/
inductive DocumentStatus
  | uploaded
  | text_extracted
  | chunked
  | metadata_added
  | summarized
  | qa_approved
  | published
  | rejected
deriving DecidableEq, Repr

/-- `PipelineStep` union type of the pipeline store. -/
inductive PipelineStep
  | upload
  | text_extraction
  | chunking
  | metadata
  | summarization
  | quality_assurance
  | publish
deriving DecidableEq, Repr

/-- The slice of the `Document` record the claims depend on. -/
structure Document where
  id : Nat
  status : DocumentStatus
deriving DecidableEq, Repr

/-- The `ChunkData` shape edited by `ChunkingStep` (and, restricted to the
fields the claims mention, the `DocumentChunk` rows held in the store). -/
structure ChunkData where
  chunk_index : Nat
  content : String
  heading : String
  section_type : String
  start_page : Option Int
  end_page : Option Int
deriving DecidableEq, Repr

/-! ## ChunkingStep chunk-list operations (`src/unnamed/part_002`) -/

/-- The word-grouping loop inside `handleAutoChunk`:
`words.forEach` pushes each word onto the current chunk and flushes it when
it reaches `wordsPerChunk` words or the last word is consumed. -/
def groupWords (wordsPerChunk : Nat) : List String → List String → List (List String)
  | [], _ => []
  | w :: ws, acc =>
    let cur := acc ++ [w]
    if wordsPerChunk ≤ cur.length ∨ ws = [] then cur :: groupWords wordsPerChunk ws []
    else groupWords wordsPerChunk ws cur

/-- Chunk construction in `handleAutoChunk`: the n-th flushed group becomes a
chunk with `chunk_index` n, content `join(' ')`, heading `Section n+1`. -/
def mkChunksFrom : Nat → List (List String) → List ChunkData
  | _, [] => []
  | i, g :: gs =>
    { chunk_index := i
      content := String.intercalate " " g
      heading := "Section " ++ toString (i + 1)
      section_type := ""
      start_page := none
      end_page := none } :: mkChunksFrom (i + 1) gs

/-- `ChunkingStep.handleAutoChunk`.  If `sourceText` is empty the handler
returns early, leaving the chunk list as it was. -/
def handleAutoChunk (sourceText : String) (autoChunkSize : Nat)
    (chunks : List ChunkData) : List ChunkData :=
  if sourceText = "" then chunks
  else
    let words := jsSplitWs sourceText
    let wordsPerChunk := autoChunkSize / 5
    mkChunksFrom 0 (groupWords wordsPerChunk words [])

/-- Chunk construction in `handleChunkByParagraph`: paragraph `idx` becomes a
chunk with `chunk_index` idx and trimmed content. -/
def paraChunksFrom : Nat → List String → List ChunkData
  | _, [] => []
  | i, p :: ps =>
    { chunk_index := i
      content := jsTrim p
      heading := "Paragraph " ++ toString (i + 1)
      section_type := ""
      start_page := none
      end_page := none } :: paraChunksFrom (i + 1) ps

/-- `ChunkingStep.handleChunkByParagraph`. -/
def handleChunkByParagraph (sourceText : String) (chunks : List ChunkData) :
    List ChunkData :=
  if sourceText = "" then chunks
  else paraChunksFrom 0 ((jsSplitParas sourceText).filter (fun p => jsTrim p ≠ ""))

/-- `ChunkingStep.addChunk`: append an empty chunk with
`chunk_index = chunks.length`. -/
def addChunk (chunks : List ChunkData) : List ChunkData :=
  chunks ++ [{ chunk_index := chunks.length
               content := ""
               heading := ""
               section_type := ""
               start_page := none
               end_page := none }]

/-- Re-index a chunk list to positions `0..n-1` (each chunk keeps its other
fields): the `map((c, i) => ({ ...c, chunk_index: i }))` step of
`removeChunk`, and also — modelled from the spec — what the backend's
full-replace save does to the posted chunks. -/
def reindexChunks (cs : List ChunkData) : List ChunkData :=
  cs.enum.map (fun p => { p.2 with chunk_index := p.1 })

/-- `ChunkingStep.removeChunk`: drop position `index`, then re-index every
remaining chunk to its new position. -/
def removeChunk (chunks : List ChunkData) (index : Nat) : List ChunkData :=
  reindexChunks ((chunks.enum.filter (fun p => p.1 ≠ index)).map Prod.snd)

/-- The §3 `DocumentChunk` ordering invariant: `chunk_index` values are
exactly the positions `0, 1, …, n-1` in list order (hence unique,
contiguous and zero-based). -/
def wellIndexed (l : List ChunkData) : Prop :=
  l.map ChunkData.chunk_index = List.range l.length

instance : DecidablePred wellIndexed := fun l =>
  inferInstanceAs (Decidable (l.map ChunkData.chunk_index = List.range l.length))

/-! ## Chat response sanitization (`sanitizeResponse` in `authStore.ts`) -/

/-- Characters JS regex `.` does not match (no `s` flag). -/
def isLineTerm (c : Char) : Bool :=
  c == '\n' || c == '\r' || c.val == 0x2028 || c.val == 0x2029

/-- Lazy search for the closing delimiter `d`: given the text following an
opening delimiter, return the shortest run of non-line-terminator characters
followed by `d`, together with the text after the match, or `none` if the
pattern cannot close before a line terminator or the end of input. -/
def findClose (d : List Char) : List Char → Option (List Char × List Char)
  | [] => none
  | c :: cs =>
    if d.isPrefixOf (c :: cs) then some ([], (c :: cs).drop d.length)
    else if isLineTerm c then none
    else match findClose d cs with
      | some (p, r) => some (c :: p, r)
      | none => none

/-- One global lazy delimiter-pair replacement,
`text.replace(new RegExp(d + "(.*?)" + d, "g"), "$1")` for a literal
delimiter `d = d0 :: ds`.  Fuel-driven so that the function computes by
structural recursion; each step consumes at least one character of input, so
`fuel = input.length` always suffices (`replaceDelimGo_fuel` below). -/
def replaceDelimGo (d0 : Char) (ds : List Char) : Nat → List Char → List Char
  | _, [] => []
  | 0, l => l
  | fuel + 1, c :: cs =>
    let d := d0 :: ds
    if d.isPrefixOf (c :: cs) then
      match findClose d ((c :: cs).drop d.length) with
      | some (p, r) => p ++ replaceDelimGo d0 ds fuel r
      | none => c :: replaceDelimGo d0 ds fuel cs
    else c :: replaceDelimGo d0 ds fuel cs

/-- One replacement pass over a string. -/
def replaceDelim (d0 : Char) (ds : List Char) (l : List Char) : List Char :=
  replaceDelimGo d0 ds l.length l

/-- `sanitizeResponse` (`authStore.ts` lines 270–277): strip `**`, `*`, `__`,
`_` and backtick markdown pairs, in that order. -/
def sanitizeResponse (text : String) : String :=
  String.mk (replaceDelim '`' []
    (replaceDelim '_' []
      (replaceDelim '_' ['_']
        (replaceDelim '*' []
          (replaceDelim '*' ['*'] text.data)))))

/-! ## Chat store (`useChatStore` in `authStore.ts`) -/

/-- Message roles. -/
inductive ChatRole
  | user
  | assistant
deriving DecidableEq, Repr

/-- A chat `Message` (ids and wall-clock timestamps, which come from
`Date.now()`, are abstracted away). -/
structure ChatMessage where
  role : ChatRole
  content : String
deriving DecidableEq, Repr

/-- The in-flight request created by `sendMessage`: its `AbortController`'s
`signal.aborted` flag, and the message it carries. -/
structure PendingRequest where
  message : String
  aborted : Bool
deriving DecidableEq, Repr

/-- Chat store state plus the in-flight request.  `hasController` is
`abortController !== null` in the store; `pending` is the request whose
callbacks close over that same controller. -/
structure ChatWorld where
  messages : List ChatMessage
  isLoading : Bool
  error : Option String
  hasController : Bool
  pending : Option PendingRequest
deriving DecidableEq, Repr

/-- `useChatStore.sendMessage` up to the point the fetch is fired: the guard
returns unchanged state (and issues no request) when the trimmed message is
empty or a request is already loading; otherwise the user message is
appended, `isLoading` is set, the error is cleared, and a fresh
non-aborted request becomes pending. -/
def sendMessage (w : ChatWorld) (messageText : String) : ChatWorld :=
  let trimmedMessage := jsTrim messageText
  if trimmedMessage = "" ∨ w.isLoading then w
  else
    { messages := w.messages ++ [{ role := .user, content := trimmedMessage }]
      isLoading := true
      error := none
      hasController := true
      pending := some { message := trimmedMessage, aborted := false } }

/-- `useChatStore.stopGeneration`: if the store holds a controller, abort it
(the pending request's callbacks will observe `signal.aborted = true`) and
reset `isLoading`/`abortController`. -/
def stopGeneration (w : ChatWorld) : ChatWorld :=
  if w.hasController then
    { w with
      pending := w.pending.map (fun p => { p with aborted := true })
      isLoading := false
      hasController := false }
  else w

/-- Resolution of the pending fetch with response text `resp`.  The `.then`
callback appends the sanitized assistant message only when
`controller.signal.aborted` is false; for an aborted request the response is
discarded (the abort also rejects the fetch, whose `AbortError` catch branch
only resets `isLoading` and the controller). -/
def responseArrives (w : ChatWorld) (resp : String) : ChatWorld :=
  match w.pending with
  | none => w
  | some p =>
    if p.aborted then
      { w with isLoading := false, hasController := false, pending := none }
    else
      { messages := w.messages ++ [{ role := .assistant, content := sanitizeResponse resp }]
        isLoading := false
        error := w.error
        hasController := false
        pending := none }

/-- The assistant-message construction of the standalone `LegalAssistant`
component (`src/unnamed/part_001`, lines 76–85): the response text is stored
as-is, with no sanitization. -/
def legalAssistantAppend (messages : List ChatMessage) (resp : String) :
    List ChatMessage :=
  messages ++ [{ role := .assistant, content := resp }]

/-! ## QA review submission (`QAStep.tsx`) -/

/-- The slice of `QAStep` component state that decides whether a review
submission issues a network request. -/
structure QAState where
  selectedDoc : Option Nat
  accessToken : Option String
  isApproved : Option Bool
  rejectionReason : String
  comments : String
  accuracyScore : Nat
  completenessScore : Nat
  formattingScore : Nat
  overallScore : Nat
  isSaving : Bool
deriving DecidableEq, Repr

/-- The POST body sent to the qa-review endpoint by `createQAReview`. -/
structure QAReviewRequest where
  document_id : Nat
  review_type : String
  accuracy_score : Option Nat
  completeness_score : Option Nat
  formatting_score : Option Nat
  overall_score : Option Nat
  is_approved : Bool
  rejection_reason : Option String
  comments : String
deriving DecidableEq, Repr

/-- JS truthiness of `tokens?.access_token`. -/
def tokenPresent (t : Option String) : Bool :=
  !(t.getD "" == "")

/-- `QAStep.handleSubmitReview`: returns the request it issues, or `none`
when the entry guard (`!selectedDoc || !tokens?.access_token ||
isApproved === null`) returns early.  A score of `0` is sent as `undefined`
(`score || undefined`), and `rejection_reason` is sent only on rejection. -/
def handleSubmitReview (s : QAState) : Option QAReviewRequest :=
  match s.selectedDoc, s.isApproved with
  | some docId, some approved =>
    if tokenPresent s.accessToken then
      some { document_id := docId
             review_type := "initial"
             accuracy_score := if s.accuracyScore = 0 then none else some s.accuracyScore
             completeness_score := if s.completenessScore = 0 then none else some s.completenessScore
             formatting_score := if s.formattingScore = 0 then none else some s.formattingScore
             overall_score := if s.overallScore = 0 then none else some s.overallScore
             is_approved := approved
             rejection_reason := if approved then none else some s.rejectionReason
             comments := s.comments }
    else none
  | _, _ => none

/-- The submit button's `disabled` condition (`QAStep.tsx` lines 464–489):
`isSaving || isApproved === null || (isApproved === false && !rejectionReason)`. -/
def submitDisabled (s : QAState) : Bool :=
  s.isSaving || s.isApproved == none ||
    (s.isApproved == some false && s.rejectionReason == "")

/-- Clicking the submit button: a disabled button fires no handler, an
enabled one runs `handleSubmitReview`. -/
def clickSubmitReview (s : QAState) : Option QAReviewRequest :=
  if submitDisabled s then none else handleSubmitReview s

/-! ## Pipeline store (`usePipelineStore` in `authStore.ts`) -/

/-- The slice of `DocumentMetadata` the claims depend on. -/
structure DocumentMetadataData where
  document_id : Nat
  legal_topics : List String
  summary : Option String
deriving DecidableEq, Repr

/-- The slice of `ExtractedText` the claims depend on. -/
structure ExtractedTextData where
  document_id : Nat
  raw_text : String
  cleaned_text : Option String
deriving DecidableEq, Repr

/-- The data and status slice of the pipeline store's state. -/
structure PipelineState where
  documents : List Document
  chunks : List ChunkData
  metadata : Option DocumentMetadataData
  extractedText : Option ExtractedTextData
  isLoading : Bool
  isSaving : Bool
  error : Option String
deriving DecidableEq, Repr

/-- Resolution of a fetch: a 2xx response carrying a parsed payload, or a
failure (a thrown network error or a non-2xx status, which the action turns
into a thrown `Error`); `msg` is the message the catch branch stores. -/
inductive FetchOutcome (α : Type)
  | ok (payload : α)
  | failure (msg : String)
deriving DecidableEq, Repr

/-- `usePipelineStore.saveChunks`: `set({ isSaving: true, error: null })`,
then on success `set({ chunks: savedChunks, isSaving: false })`, and in the
catch branch `set({ error: message, isSaving: false })`. -/
def saveChunksAction (s : PipelineState) (outcome : FetchOutcome (List ChunkData)) :
    PipelineState :=
  let s1 := { s with isSaving := true, error := none }
  match outcome with
  | .ok savedChunks => { s1 with chunks := savedChunks, isSaving := false }
  | .failure msg => { s1 with error := some msg, isSaving := false }

/-- `usePipelineStore.saveMetadata`: same shape, writing `metadata`. -/
def saveMetadataAction (s : PipelineState)
    (outcome : FetchOutcome DocumentMetadataData) : PipelineState :=
  let s1 := { s with isSaving := true, error := none }
  match outcome with
  | .ok metadata => { s1 with metadata := some metadata, isSaving := false }
  | .failure msg => { s1 with error := some msg, isSaving := false }

/-- `usePipelineStore.saveExtractedText`: same shape, writing
`extractedText`. -/
def saveExtractedTextAction (s : PipelineState)
    (outcome : FetchOutcome ExtractedTextData) : PipelineState :=
  let s1 := { s with isSaving := true, error := none }
  match outcome with
  | .ok extracted => { s1 with extractedText := some extracted, isSaving := false }
  | .failure msg => { s1 with error := some msg, isSaving := false }

/-- `usePipelineStore.fetchChunks`: `set({ isLoading: true })`, then the
response list replaces `chunks`; the catch branch stores `[]`. -/
def fetchChunksAction (s : PipelineState) (outcome : FetchOutcome (List ChunkData)) :
    PipelineState :=
  let s1 := { s with isLoading := true }
  match outcome with
  | .ok chunks => { s1 with chunks := chunks, isLoading := false }
  | .failure _ => { s1 with chunks := [], isLoading := false }

/-- The server's chunk store, per document id. -/
def ChunkDB : Type := Nat → List ChunkData

/-- Modelled from the spec: the backend of `POST
/pipeline/documents/{id}/chunks` is not under `src/`; per §4.2 and §8 the
save "performs a full replace of a document's chunk set, re-indexing from
zero; it is not a merge/patch", and responds with the saved set. -/
def backendSaveChunks (db : ChunkDB) (docId : Nat) (newChunks : List ChunkData) :
    ChunkDB × List ChunkData :=
  let saved := reindexChunks newChunks
  (fun d => if d = docId then saved else db d, saved)

/-- Modelled from the spec: `GET /pipeline/documents/{id}/chunks` returns
the document's current chunk set. -/
def backendFetchChunks (db : ChunkDB) (docId : Nat) : List ChunkData :=
  db docId

/-- A successful `saveChunks(D, newChunks)` followed by a successful
`fetchChunks(D)`, with the backend resolving both requests. -/
def saveThenFetchChunks (db : ChunkDB) (docId : Nat) (newChunks : List ChunkData)
    (s : PipelineState) : PipelineState :=
  let r := backendSaveChunks db docId newChunks
  fetchChunksAction (saveChunksAction s (.ok r.2)) (.ok (backendFetchChunks r.1 docId))

/-! ## Step document queues -/

/-- `ChunkingStep`'s queue (`src/unnamed/part_002` line 200). -/
def chunkingPendingDocs (documents : List Document) : List Document :=
  documents.filter (fun d => d.status == .text_extracted)

/-- `MetadataStep`'s queue (`src/unnamed/part_004` line 157). -/
def metadataPendingDocs (documents : List Document) : List Document :=
  documents.filter (fun d => d.status == .chunked)

/-- `SummarizationStep`'s queue (`SummarizationStep.tsx` line 112). -/
def summarizationPendingDocs (documents : List Document) : List Document :=
  documents.filter (fun d => d.status == .metadata_added)

/-- `QAStep`'s queue (`QAStep.tsx` line 168). -/
def qaPendingDocs (documents : List Document) : List Document :=
  documents.filter (fun d => d.status == .summarized)

/-- `PublishStep`'s queue (`PublishStep.tsx` line 99). -/
def publishPendingDocs (documents : List Document) : List Document :=
  documents.filter (fun d => d.status == .qa_approved)

/-- The §4.2 transition table's entry status for the five queue-reading
steps. -/
def entryStatus : PipelineStep → Option DocumentStatus
  | .upload => none
  | .text_extraction => some .uploaded
  | .chunking => some .text_extracted
  | .metadata => some .chunked
  | .summarization => some .metadata_added
  | .quality_assurance => some .summarized
  | .publish => some .qa_approved

/-! ## Tag-list editing (MetadataStep / PublishStep / SummarizationStep) -/

/-- `MetadataStep.addToArray` (`src/unnamed/part_004` lines 137–141):
append `value.trim()` only if it is truthy and not already included. -/
def addToArray (l : List String) (value : String) : List String :=
  if jsTrim value ≠ "" ∧ jsTrim value ∉ l then l ++ [jsTrim value] else l

/-- `MetadataStep.removeFromArray`: drop the entry at `index`. -/
def removeFromArray (l : List String) (index : Nat) : List String :=
  (l.enum.filter (fun p => p.1 ≠ index)).map Prod.snd

/-- `PublishStep.addKeyword` (`PublishStep.tsx` lines 74–79): same guard and
append on the keyword list. -/
def addKeyword (searchKeywords : List String) (newKeyword : String) : List String :=
  if jsTrim newKeyword ≠ "" ∧ jsTrim newKeyword ∉ searchKeywords then
    searchKeywords ++ [jsTrim newKeyword]
  else searchKeywords

/-- `PublishStep.removeKeyword`. -/
def removeKeyword (searchKeywords : List String) (index : Nat) : List String :=
  (searchKeywords.enum.filter (fun p => p.1 ≠ index)).map Prod.snd

/-- `SummarizationStep.addKeyPoint` (`SummarizationStep.tsx` lines 61–66). -/
def addKeyPoint (keyPoints : List String) (newKeyPoint : String) : List String :=
  if jsTrim newKeyPoint ≠ "" ∧ jsTrim newKeyPoint ∉ keyPoints then
    keyPoints ++ [jsTrim newKeyPoint]
  else keyPoints

/-- `SummarizationStep.removeKeyPoint`. -/
def removeKeyPoint (keyPoints : List String) (index : Nat) : List String :=
  (keyPoints.enum.filter (fun p => p.1 ≠ index)).map Prod.snd

/-- An edit on a tag list: an add with raw input text, or a remove at an
index. -/
inductive TagOp
  | add (value : String)
  | remove (index : Nat)
deriving DecidableEq, Repr

/-- A sequence of `MetadataStep` array edits. -/
def applyMetadataOps (ops : List TagOp) (l : List String) : List String :=
  ops.foldl (fun acc op => match op with
    | .add v => addToArray acc v
    | .remove i => removeFromArray acc i) l

/-- A sequence of `PublishStep` keyword edits. -/
def applyKeywordOps (ops : List TagOp) (l : List String) : List String :=
  ops.foldl (fun acc op => match op with
    | .add v => addKeyword acc v
    | .remove i => removeKeyword acc i) l

/-- A sequence of `SummarizationStep` key-point edits. -/
def applyKeyPointOps (ops : List TagOp) (l : List String) : List String :=
  ops.foldl (fun acc op => match op with
    | .add v => addKeyPoint acc v
    | .remove i => removeKeyPoint acc i) l

/-- A clean tag list: no duplicates, and no whitespace-only entries (every
entry contains at least one non-whitespace character; in particular no entry
is empty). -/
def tagListOk (l : List String) : Prop :=
  l.Nodup ∧ ∀ x ∈ l, ∃ c ∈ x.data, jsIsWhitespace c = false

instance : DecidablePred tagListOk := fun l =>
  inferInstanceAs (Decidable (l.Nodup ∧ ∀ x ∈ l, ∃ c ∈ x.data, jsIsWhitespace c = false))

/-! ## Concrete source texts for the auto-chunk scenario -/

/-- Join a list of words with single spaces (used to construct concrete
source texts). -/
def joinWords : List (List Char) → List Char
  | [] => []
  | [w] => w
  | w :: ws => w ++ ' ' :: joinWords ws

/-- Words that are non-empty and contain no whitespace characters. -/
def goodWords (ws : List (List Char)) : Prop :=
  ∀ w ∈ ws, w ≠ [] ∧ ∀ c ∈ w, jsIsWhitespace c = false

/-- The word list of a 5000-character source text made of 1000
whitespace-separated words: 999 four-letter words and one five-letter word
(999·4 + 999 separators + 5 = 5000 characters). -/
def witWords : List (List Char) :=
  List.replicate 999 (List.replicate 4 'a') ++ [List.replicate 5 'a']

/-- A 5000-character source text of 1000 whitespace-separated words. -/
def witText : String := String.mk (joinWords witWords)

/-- A 5000-character source text containing no whitespace at all. -/
def aText : String := String.mk (List.replicate 5000 'a')

/-! ## Chunk-index lemmas -/

theorem mkChunksFrom_length (i : Nat) (gs : List (List String)) :
    (mkChunksFrom i gs).length = gs.length := by
  induction gs generalizing i with
  | nil => rfl
  | cons g gs ih => simp [mkChunksFrom, ih]

theorem mkChunksFrom_map_index (i : Nat) (gs : List (List String)) :
    (mkChunksFrom i gs).map ChunkData.chunk_index = List.range' i gs.length := by
  induction gs generalizing i with
  | nil => rfl
  | cons g gs ih => simp [mkChunksFrom, List.range'_succ, ih]

theorem wellIndexed_mkChunksFrom (gs : List (List String)) :
    wellIndexed (mkChunksFrom 0 gs) := by
  unfold wellIndexed
  rw [mkChunksFrom_map_index, mkChunksFrom_length, List.range_eq_range']

theorem paraChunksFrom_length (i : Nat) (ps : List String) :
    (paraChunksFrom i ps).length = ps.length := by
  induction ps generalizing i with
  | nil => rfl
  | cons p ps ih => simp [paraChunksFrom, ih]

theorem paraChunksFrom_map_index (i : Nat) (ps : List String) :
    (paraChunksFrom i ps).map ChunkData.chunk_index = List.range' i ps.length := by
  induction ps generalizing i with
  | nil => rfl
  | cons p ps ih => simp [paraChunksFrom, List.range'_succ, ih]

theorem wellIndexed_paraChunksFrom (ps : List String) :
    wellIndexed (paraChunksFrom 0 ps) := by
  unfold wellIndexed
  rw [paraChunksFrom_map_index, paraChunksFrom_length, List.range_eq_range']

theorem reindexChunks_length (cs : List ChunkData) :
    (reindexChunks cs).length = cs.length := by
  simp [reindexChunks]

theorem reindexChunks_map_index (cs : List ChunkData) :
    (reindexChunks cs).map ChunkData.chunk_index = List.range cs.length := by
  unfold reindexChunks
  rw [List.map_map]
  have h : (ChunkData.chunk_index ∘ fun p : Nat × ChunkData =>
      { p.2 with chunk_index := p.1 }) = Prod.fst := by
    funext p; rfl
  rw [h, List.enum_map_fst]

theorem reindexChunks_map_content (cs : List ChunkData) :
    (reindexChunks cs).map ChunkData.content = cs.map ChunkData.content := by
  unfold reindexChunks
  rw [List.map_map]
  have h : (ChunkData.content ∘ fun p : Nat × ChunkData =>
      { p.2 with chunk_index := p.1 }) = ChunkData.content ∘ Prod.snd := by
    funext p; rfl
  rw [h, ← List.map_map, List.enum_map_snd]

theorem reindexChunks_getElem (cs : List ChunkData) (i : Nat) :
    (reindexChunks cs)[i]? = cs[i]?.map (fun c => { c with chunk_index := i }) := by
  unfold reindexChunks
  rw [List.getElem?_map, List.getElem?_enum]
  cases cs[i]? <;> rfl

theorem wellIndexed_reindexChunks (cs : List ChunkData) :
    wellIndexed (reindexChunks cs) := by
  unfold wellIndexed
  rw [reindexChunks_map_index, reindexChunks_length]

/-- Claim C4: after each chunk-list operation of the chunking step the
`chunk_index` values are exactly the list positions `0..n-1` — unique,
contiguous and zero-based.  Auto-chunk, chunk-by-paragraphs and remove
establish the invariant outright; add preserves it. -/
theorem chunk_ops_well_indexed :
    (∀ (sourceText : String) (autoChunkSize : Nat) (chunks : List ChunkData),
      wellIndexed chunks → wellIndexed (handleAutoChunk sourceText autoChunkSize chunks)) ∧
    (∀ (sourceText : String) (chunks : List ChunkData),
      wellIndexed chunks → wellIndexed (handleChunkByParagraph sourceText chunks)) ∧
    (∀ chunks : List ChunkData, wellIndexed chunks → wellIndexed (addChunk chunks)) ∧
    (∀ (chunks : List ChunkData) (index : Nat), wellIndexed (removeChunk chunks index)) := by
  refine ⟨?_, ?_, ?_, ?_⟩
  · intro sourceText autoChunkSize chunks h
    unfold handleAutoChunk
    split
    · exact h
    · exact wellIndexed_mkChunksFrom _
  · intro sourceText chunks h
    unfold handleChunkByParagraph
    split
    · exact h
    · exact wellIndexed_paraChunksFrom _
  · intro chunks h
    unfold wellIndexed addChunk
    unfold wellIndexed at h
    simp [h, List.range_succ]
  · intro chunks index
    exact wellIndexed_reindexChunks _

/-- Claim C4 witness: the operations evaluated on concrete inputs. -/
theorem chunk_ops_well_indexed_witness :
    wellIndexed [] ∧
    wellIndexed (handleAutoChunk "one two three four" 10 []) ∧
    wellIndexed (handleChunkByParagraph "p one\n\np two" []) ∧
    wellIndexed (addChunk (handleAutoChunk "one two three four" 10 [])) ∧
    wellIndexed (removeChunk (handleAutoChunk "one two three four" 10 []) 0) :=
  ⟨by decide,
   chunk_ops_well_indexed.1 "one two three four" 10 [] (by decide),
   chunk_ops_well_indexed.2.1 "p one\n\np two" [] (by decide),
   chunk_ops_well_indexed.2.2.1 _ (chunk_ops_well_indexed.1 "one two three four" 10 [] (by decide)),
   chunk_ops_well_indexed.2.2.2 _ 0⟩

/-- Claim C3: a successful `saveChunks(D, newChunks)` overwrites the store's
chunk state wholesale with the saved set (no merge), the backend save — as
the spec describes it — replaces D's chunk set with `newChunks` re-indexed
`0..n-1`, and a subsequent `fetchChunks(D)` therefore returns exactly that
set, independent of the previous store or backend contents. -/
theorem saveChunks_full_replace (db : ChunkDB) (docId : Nat)
    (newChunks : List ChunkData) (s : PipelineState) :
    (saveThenFetchChunks db docId newChunks s).chunks = reindexChunks newChunks ∧
    (saveChunksAction s (.ok (reindexChunks newChunks))).chunks = reindexChunks newChunks ∧
    (reindexChunks newChunks).length = newChunks.length ∧
    (reindexChunks newChunks).map ChunkData.chunk_index = List.range newChunks.length ∧
    (∀ i : Nat, (reindexChunks newChunks)[i]? =
      newChunks[i]?.map (fun c => { c with chunk_index := i })) ∧
    ∀ (db' : ChunkDB) (s' : PipelineState),
      (saveThenFetchChunks db' docId newChunks s').chunks =
        (saveThenFetchChunks db docId newChunks s).chunks := by
  refine ⟨?_, rfl, reindexChunks_length _, reindexChunks_map_index _,
    fun i => reindexChunks_getElem _ i, ?_⟩
  · simp [saveThenFetchChunks, backendSaveChunks, backendFetchChunks,
      saveChunksAction, fetchChunksAction]
  · intro db' s'
    simp [saveThenFetchChunks, backendSaveChunks, backendFetchChunks,
      saveChunksAction, fetchChunksAction]

/-- Claim C7: when a pipeline save action's fetch fails (thrown error or
non-2xx), the catch branch stores the message as the single error string and
the data slices of the store are untouched. -/
theorem save_failure_preserves_data (s : PipelineState) (msg : String) :
    ((saveChunksAction s (.failure msg)).documents = s.documents ∧
     (saveChunksAction s (.failure msg)).chunks = s.chunks ∧
     (saveChunksAction s (.failure msg)).metadata = s.metadata ∧
     (saveChunksAction s (.failure msg)).extractedText = s.extractedText ∧
     (saveChunksAction s (.failure msg)).error = some msg) ∧
    ((saveMetadataAction s (.failure msg)).documents = s.documents ∧
     (saveMetadataAction s (.failure msg)).chunks = s.chunks ∧
     (saveMetadataAction s (.failure msg)).metadata = s.metadata ∧
     (saveMetadataAction s (.failure msg)).extractedText = s.extractedText ∧
     (saveMetadataAction s (.failure msg)).error = some msg) ∧
    ((saveExtractedTextAction s (.failure msg)).documents = s.documents ∧
     (saveExtractedTextAction s (.failure msg)).chunks = s.chunks ∧
     (saveExtractedTextAction s (.failure msg)).metadata = s.metadata ∧
     (saveExtractedTextAction s (.failure msg)).extractedText = s.extractedText ∧
     (saveExtractedTextAction s (.failure msg)).error = some msg) := by
  refine ⟨⟨rfl, rfl, rfl, rfl, rfl⟩, ⟨rfl, rfl, rfl, rfl, rfl⟩, ⟨rfl, rfl, rfl, rfl, rfl⟩⟩

/-- Claim C6: every step queue is exactly the documents whose status is the
step's entry status from the transition table, so published or rejected
documents appear in no queue. -/
theorem step_queues_match_entry_status (documents : List Document) (d : Document) :
    (d ∈ chunkingPendingDocs documents ↔ d ∈ documents ∧ d.status = .text_extracted) ∧
    (d ∈ metadataPendingDocs documents ↔ d ∈ documents ∧ d.status = .chunked) ∧
    (d ∈ summarizationPendingDocs documents ↔ d ∈ documents ∧ d.status = .metadata_added) ∧
    (d ∈ qaPendingDocs documents ↔ d ∈ documents ∧ d.status = .summarized) ∧
    (d ∈ publishPendingDocs documents ↔ d ∈ documents ∧ d.status = .qa_approved) ∧
    (entryStatus .chunking = some .text_extracted ∧
     entryStatus .metadata = some .chunked ∧
     entryStatus .summarization = some .metadata_added ∧
     entryStatus .quality_assurance = some .summarized ∧
     entryStatus .publish = some .qa_approved) ∧
    (d.status = .published ∨ d.status = .rejected →
      d ∉ chunkingPendingDocs documents ∧ d ∉ metadataPendingDocs documents ∧
      d ∉ summarizationPendingDocs documents ∧ d ∉ qaPendingDocs documents ∧
      d ∉ publishPendingDocs documents) := by
  have hc : d ∈ chunkingPendingDocs documents ↔ d ∈ documents ∧ d.status = .text_extracted := by
    simp [chunkingPendingDocs, List.mem_filter, beq_iff_eq]
  have hm : d ∈ metadataPendingDocs documents ↔ d ∈ documents ∧ d.status = .chunked := by
    simp [metadataPendingDocs, List.mem_filter, beq_iff_eq]
  have hs : d ∈ summarizationPendingDocs documents ↔ d ∈ documents ∧ d.status = .metadata_added := by
    simp [summarizationPendingDocs, List.mem_filter, beq_iff_eq]
  have hq : d ∈ qaPendingDocs documents ↔ d ∈ documents ∧ d.status = .summarized := by
    simp [qaPendingDocs, List.mem_filter, beq_iff_eq]
  have hp : d ∈ publishPendingDocs documents ↔ d ∈ documents ∧ d.status = .qa_approved := by
    simp [publishPendingDocs, List.mem_filter, beq_iff_eq]
  refine ⟨hc, hm, hs, hq, hp, ⟨rfl, rfl, rfl, rfl, rfl⟩, ?_⟩
  intro h
  have hne : d.status ≠ .text_extracted ∧ d.status ≠ .chunked ∧
      d.status ≠ .metadata_added ∧ d.status ≠ .summarized ∧ d.status ≠ .qa_approved := by
    rcases h with h | h <;> rw [h] <;>
      exact ⟨by decide, by decide, by decide, by decide, by decide⟩
  exact ⟨fun hx => hne.1 (hc.1 hx).2, fun hx => hne.2.1 (hm.1 hx).2,
         fun hx => hne.2.2.1 (hs.1 hx).2, fun hx => hne.2.2.2.1 (hq.1 hx).2,
         fun hx => hne.2.2.2.2 (hp.1 hx).2⟩

/-- Claim C6 witness: the queues evaluated on a concrete document list
containing a published and a rejected document. -/
theorem step_queues_match_entry_status_witness :
    (({ id := 1, status := .published } : Document).status = .published ∨
      ({ id := 1, status := .published } : Document).status = .rejected) ∧
    ({ id := 1, status := .published } : Document) ∉
      chunkingPendingDocs [{ id := 1, status := .published }, { id := 2, status := .text_extracted }] ∧
    ({ id := 2, status := .text_extracted } : Document) ∈
      chunkingPendingDocs [{ id := 1, status := .published }, { id := 2, status := .text_extracted }] :=
  ⟨Or.inl rfl,
   ((step_queues_match_entry_status
      [{ id := 1, status := .published }, { id := 2, status := .text_extracted }]
      { id := 1, status := .published }).2.2.2.2.2.2 (Or.inl rfl)).1,
   by decide⟩

/-! ## QA submission guard (C1) -/

/-- Claim C1: with `isApproved` null the review handler's entry guard
returns before the fetch, and with `isApproved === false` and an empty
`rejectionReason` the submit button is disabled — in either case no request
to the qa-review endpoint is issued. -/
theorem qa_review_client_side_guard (s : QAState)
    (h : s.isApproved = none ∨ (s.isApproved = some false ∧ s.rejectionReason = "")) :
    clickSubmitReview s = none ∧
    (s.isApproved = none → handleSubmitReview s = none) := by
  constructor
  · have hdis : submitDisabled s = true := by
      rcases h with h | ⟨h1, h2⟩
      · simp [submitDisabled, h]
      · simp [submitDisabled, h1, h2]
    simp [clickSubmitReview, hdis]
  · intro hnull
    unfold handleSubmitReview
    rw [hnull]
    rcases s.selectedDoc with _ | d <;> rfl

/-- Claim C1 witness: two concrete review states — one undecided, one
rejected without a reason — both produce no request. -/
theorem qa_review_client_side_guard_witness :
    (({ selectedDoc := some 7, accessToken := some "tok", isApproved := none,
        rejectionReason := "", comments := "", accuracyScore := 0,
        completenessScore := 0, formattingScore := 0, overallScore := 0,
        isSaving := false } : QAState).isApproved = none ∨
      (({ selectedDoc := some 7, accessToken := some "tok", isApproved := none,
          rejectionReason := "", comments := "", accuracyScore := 0,
          completenessScore := 0, formattingScore := 0, overallScore := 0,
          isSaving := false } : QAState).isApproved = some false ∧
        ({ selectedDoc := some 7, accessToken := some "tok", isApproved := none,
           rejectionReason := "", comments := "", accuracyScore := 0,
           completenessScore := 0, formattingScore := 0, overallScore := 0,
           isSaving := false } : QAState).rejectionReason = "")) ∧
    clickSubmitReview
      { selectedDoc := some 7, accessToken := some "tok", isApproved := none,
        rejectionReason := "", comments := "", accuracyScore := 0,
        completenessScore := 0, formattingScore := 0, overallScore := 0,
        isSaving := false } = none ∧
    clickSubmitReview
      { selectedDoc := some 7, accessToken := some "tok", isApproved := some false,
        rejectionReason := "", comments := "", accuracyScore := 3,
        completenessScore := 4, formattingScore := 5, overallScore := 4,
        isSaving := false } = none :=
  ⟨Or.inl rfl,
   (qa_review_client_side_guard _ (Or.inl rfl)).1,
   (qa_review_client_side_guard _ (Or.inr ⟨rfl, rfl⟩)).1⟩

/-! ## Chat cancellation and entry guard (C2, C9) -/

/-- Claim C9: `sendMessage` with a whitespace-only message, or while a
request is already loading, is a no-op: the state is returned unchanged and
no request becomes pending. -/
theorem send_message_entry_guard (w : ChatWorld) (messageText : String)
    (h : jsTrim messageText = "" ∨ w.isLoading = true) :
    sendMessage w messageText = w := by
  rcases h with h | h <;> simp [sendMessage, h]

/-- Claim C9 witness: a whitespace message against an idle store, and a
non-empty message against a loading store. -/
theorem send_message_entry_guard_witness :
    (jsTrim "  \t " = "" ∨
      ({ messages := [], isLoading := false, error := none,
         hasController := false, pending := none } : ChatWorld).isLoading = true) ∧
    sendMessage { messages := [], isLoading := false, error := none,
                  hasController := false, pending := none } "  \t " =
      { messages := [], isLoading := false, error := none,
        hasController := false, pending := none } ∧
    sendMessage { messages := [], isLoading := true, error := none,
                  hasController := true,
                  pending := some { message := "q", aborted := false } } "hello" =
      { messages := [], isLoading := true, error := none,
        hasController := true, pending := some { message := "q", aborted := false } } :=
  ⟨Or.inl (by decide),
   send_message_entry_guard _ _ (Or.inl (by decide)),
   send_message_entry_guard _ _ (Or.inr rfl)⟩

/-- Claim C2: calling `stopGeneration` while a request is in flight leaves
`isLoading = false`, and the late response for the aborted request is
discarded — the message list stays exactly as it was just after the send. -/
theorem stop_generation_discards_late_response (w : ChatWorld)
    (messageText resp : String)
    (hmsg : jsTrim messageText ≠ "") (hload : w.isLoading = false) :
    (stopGeneration (sendMessage w messageText)).isLoading = false ∧
    (responseArrives (stopGeneration (sendMessage w messageText)) resp).isLoading = false ∧
    (responseArrives (stopGeneration (sendMessage w messageText)) resp).messages =
      (sendMessage w messageText).messages ∧
    (responseArrives (stopGeneration (sendMessage w messageText)) resp).pending = none := by
  have hsend : sendMessage w messageText =
      { messages := w.messages ++ [{ role := .user, content := jsTrim messageText }]
        isLoading := true
        error := none
        hasController := true
        pending := some { message := jsTrim messageText, aborted := false } } := by
    simp [sendMessage, hmsg, hload]
  rw [hsend]
  simp [stopGeneration, responseArrives]

/-- Claim C2 witness: a concrete send, stop, late-arrival run. -/
theorem stop_generation_discards_late_response_witness :
    jsTrim "what is bail?" ≠ "" ∧
    ({ messages := [], isLoading := false, error := none,
       hasController := false, pending := none } : ChatWorld).isLoading = false ∧
    (responseArrives
      (stopGeneration
        (sendMessage { messages := [], isLoading := false, error := none,
                       hasController := false, pending := none } "what is bail?"))
      "**late** answer").messages =
      (sendMessage { messages := [], isLoading := false, error := none,
                     hasController := false, pending := none } "what is bail?").messages :=
  ⟨by decide, rfl,
   (stop_generation_discards_late_response
      { messages := [], isLoading := false, error := none,
        hasController := false, pending := none }
      "what is bail?" "**late** answer" (by decide) rfl).2.2.1⟩

/-! ## Response sanitization (C8) -/

/-- Claim C8 counterexample: the standalone `LegalAssistant` component
(`src/unnamed/part_001`) stores the assistant response verbatim, while
stripping the markdown markers of `"**bold**"` would yield `"bold"` — so
not every assistant response received by the chat feature is stored
stripped. -/
theorem legal_assistant_stores_raw_response :
    legalAssistantAppend [] "**bold**" =
      [{ role := ChatRole.assistant, content := "**bold**" }] ∧
    sanitizeResponse "**bold**" = "bold" ∧
    ({ role := ChatRole.assistant, content := "**bold**" } : ChatMessage) ≠
      { role := ChatRole.assistant, content := sanitizeResponse "**bold**" } := by
  refine ⟨rfl, by decide, by decide⟩

/-- Claim C8 amended: an assistant response that resolves a non-aborted chat
store request is stored with the bold/italic/code markdown markers stripped
(`sanitizeResponse`); the standalone `LegalAssistant` variant appends the
raw response text unchanged. -/
theorem chat_store_sanitizes_response (w : ChatWorld) (resp : String)
    (p : PendingRequest) (hp : w.pending = some p) (hab : p.aborted = false) :
    (responseArrives w resp).messages =
      w.messages ++ [{ role := .assistant, content := sanitizeResponse resp }] ∧
    ∀ messages : List ChatMessage,
      legalAssistantAppend messages resp =
        messages ++ [{ role := .assistant, content := resp }] := by
  constructor
  · simp [responseArrives, hp, hab]
  · intro messages; rfl

/-- Claim C8 amended witness: a concrete response carrying markdown markers
through a live (non-aborted) request. -/
theorem chat_store_sanitizes_response_witness :
    ({ messages := [{ role := ChatRole.user, content := "q" }], isLoading := true,
       error := none, hasController := true,
       pending := some { message := "q", aborted := false } } : ChatWorld).pending =
      some { message := "q", aborted := false } ∧
    ({ message := "q", aborted := false } : PendingRequest).aborted = false ∧
    (responseArrives
      { messages := [{ role := ChatRole.user, content := "q" }], isLoading := true,
        error := none, hasController := true,
        pending := some { message := "q", aborted := false } }
      "**Bail** is _conditional_ `release`").messages =
      [{ role := ChatRole.user, content := "q" },
       { role := ChatRole.assistant, content := "Bail is conditional release" }] := by
  refine ⟨rfl, rfl, ?_⟩
  rw [(chat_store_sanitizes_response _ "**Bail** is _conditional_ `release`"
        { message := "q", aborted := false } rfl rfl).1]
  decide

/-! ## Tag-list invariants (C10) -/

theorem dropWhile_head_not {α : Type} (p : α → Bool) (l : List α) (c : α)
    (t : List α) (h : l.dropWhile p = c :: t) : p c = false := by
  induction l with
  | nil => simp at h
  | cons a as ih =>
    by_cases hp : p a
    · rw [List.dropWhile_cons_of_pos hp] at h
      exact ih h
    · rw [List.dropWhile_cons_of_neg hp] at h
      cases h
      simpa using hp

/-- A non-empty trim result contains a non-whitespace character (its first
character survived the leading `dropWhile`). -/
theorem jsTrim_has_content (v : String) (h : jsTrim v ≠ "") :
    ∃ c ∈ (jsTrim v).data, jsIsWhitespace c = false := by
  unfold jsTrim at h ⊢
  set l2 := ((v.data.dropWhile jsIsWhitespace).reverse.dropWhile jsIsWhitespace) with hl2
  have hne : l2 ≠ [] := by
    intro hnil
    apply h
    rw [hnil]
    rfl
  obtain ⟨c, t, hct⟩ := List.exists_cons_of_ne_nil hne
  refine ⟨c, ?_, ?_⟩
  · show c ∈ l2.reverse
    rw [hct]
    simp
  · exact dropWhile_head_not jsIsWhitespace _ c t (hl2 ▸ hct)

theorem tagListOk_addToArray (l : List String) (v : String) (h : tagListOk l) :
    tagListOk (addToArray l v) := by
  unfold addToArray
  split
  · rename_i hcond
    obtain ⟨hnodup, hclean⟩ := h
    constructor
    · rw [List.nodup_append]
      refine ⟨hnodup, List.nodup_singleton _, ?_⟩
      intro x hx hy
      rw [List.mem_singleton] at hy
      subst hy
      exact hcond.2 hx
    · intro x hx
      rcases List.mem_append.1 hx with hx | hx
      · exact hclean x hx
      · rw [List.mem_singleton] at hx
        subst hx
        exact jsTrim_has_content v hcond.1
  · exact h

theorem removeFromArray_sublist (l : List String) (i : Nat) :
    (removeFromArray l i).Sublist l := by
  unfold removeFromArray
  have h1 : ((l.enum.filter (fun p => p.1 ≠ i)).map Prod.snd).Sublist
      (l.enum.map Prod.snd) := List.Sublist.map _ (List.filter_sublist _)
  rwa [List.enum_map_snd] at h1

theorem tagListOk_removeFromArray (l : List String) (i : Nat) (h : tagListOk l) :
    tagListOk (removeFromArray l i) :=
  ⟨h.1.sublist (removeFromArray_sublist l i),
   fun x hx => h.2 x ((removeFromArray_sublist l i).subset hx)⟩

theorem addKeyword_eq_addToArray : addKeyword = addToArray := rfl

theorem addKeyPoint_eq_addToArray : addKeyPoint = addToArray := rfl

theorem removeKeyword_eq_removeFromArray : removeKeyword = removeFromArray := rfl

theorem removeKeyPoint_eq_removeFromArray : removeKeyPoint = removeFromArray := rfl

theorem tagListOk_applyMetadataOps (ops : List TagOp) (l : List String)
    (h : tagListOk l) : tagListOk (applyMetadataOps ops l) := by
  induction ops generalizing l with
  | nil => exact h
  | cons op ops ih =>
    unfold applyMetadataOps at ih ⊢
    rw [List.foldl_cons]
    cases op with
    | add v => exact ih _ (tagListOk_addToArray l v h)
    | remove i => exact ih _ (tagListOk_removeFromArray l i h)

theorem tagListOk_applyKeywordOps (ops : List TagOp) (l : List String)
    (h : tagListOk l) : tagListOk (applyKeywordOps ops l) := by
  induction ops generalizing l with
  | nil => exact h
  | cons op ops ih =>
    unfold applyKeywordOps at ih ⊢
    rw [List.foldl_cons]
    cases op with
    | add v =>
      rw [addKeyword_eq_addToArray]
      exact ih _ (tagListOk_addToArray l v h)
    | remove i =>
      rw [removeKeyword_eq_removeFromArray]
      exact ih _ (tagListOk_removeFromArray l i h)

theorem tagListOk_applyKeyPointOps (ops : List TagOp) (l : List String)
    (h : tagListOk l) : tagListOk (applyKeyPointOps ops l) := by
  induction ops generalizing l with
  | nil => exact h
  | cons op ops ih =>
    unfold applyKeyPointOps at ih ⊢
    rw [List.foldl_cons]
    cases op with
    | add v =>
      rw [addKeyPoint_eq_addToArray]
      exact ih _ (tagListOk_addToArray l v h)
    | remove i =>
      rw [removeKeyPoint_eq_removeFromArray]
      exact ih _ (tagListOk_removeFromArray l i h)

/-- Claim C10: an add appends only a trimmed, non-empty, absent value (in
all three components), so any sequence of add/remove operations on a clean
tag list keeps it free of duplicates and whitespace-only entries. -/
theorem tag_lists_stay_clean :
    (∀ (l : List String) (v : String),
      addToArray l v = l ∨
        (jsTrim v ≠ "" ∧ jsTrim v ∉ l ∧ addToArray l v = l ++ [jsTrim v])) ∧
    (∀ (l : List String) (v : String), addKeyword l v = addToArray l v) ∧
    (∀ (l : List String) (v : String), addKeyPoint l v = addToArray l v) ∧
    (∀ (ops : List TagOp) (l : List String),
      tagListOk l → tagListOk (applyMetadataOps ops l)) ∧
    (∀ (ops : List TagOp) (l : List String),
      tagListOk l → tagListOk (applyKeywordOps ops l)) ∧
    (∀ (ops : List TagOp) (l : List String),
      tagListOk l → tagListOk (applyKeyPointOps ops l)) := by
  refine ⟨?_, fun l v => rfl, fun l v => rfl,
    tagListOk_applyMetadataOps, tagListOk_applyKeywordOps, tagListOk_applyKeyPointOps⟩
  intro l v
  unfold addToArray
  split
  · rename_i hcond
    exact Or.inr ⟨hcond.1, hcond.2, rfl⟩
  · exact Or.inl rfl

/-- Claim C10 witness: a concrete edit sequence — duplicate and
whitespace-only adds are dropped, removal keeps the list clean. -/
theorem tag_lists_stay_clean_witness :
    tagListOk ["bail"] ∧
    applyMetadataOps
      [TagOp.add " contract ", TagOp.add "contract", TagOp.add "   ",
       TagOp.remove 0, TagOp.add "tort"] ["bail"] = ["contract", "tort"] ∧
    tagListOk (applyMetadataOps
      [TagOp.add " contract ", TagOp.add "contract", TagOp.add "   ",
       TagOp.remove 0, TagOp.add "tort"] ["bail"]) :=
  ⟨by decide, by decide,
   tag_lists_stay_clean.2.2.2.1
     [TagOp.add " contract ", TagOp.add "contract", TagOp.add "   ",
      TagOp.remove 0, TagOp.add "tort"] ["bail"] (by decide)⟩

/-! ## Whitespace splitting of space-joined word lists -/

theorem splitWsGo_append_word :
    ∀ (w l cur : List Char), (∀ c ∈ w, jsIsWhitespace c = false) →
      splitWsGo (w ++ l) cur false = splitWsGo l (w.reverse ++ cur) false := by
  intro w
  induction w with
  | nil => intro l cur _; simp
  | cons c w ih =>
    intro l cur hw
    have hc : jsIsWhitespace c = false := hw c (List.mem_cons_self c w)
    have ihw := ih l (c :: cur) (fun x hx => hw x (List.mem_cons_of_mem c hx))
    rw [List.cons_append]
    show (if jsIsWhitespace c then _ else splitWsGo (w ++ l) (c :: cur) false) = _
    rw [if_neg (by simp [hc]), ihw, List.reverse_cons, List.append_assoc,
      List.singleton_append]

theorem splitWsGo_space (l cur : List Char) :
    splitWsGo (' ' :: l) cur false = cur.reverse :: splitWsGo l [] true := by
  show (if jsIsWhitespace ' ' then cur.reverse :: splitWsGo l [] true else _) = _
  rw [if_pos (by decide)]

theorem joinWords_cons_cons (w w2 : List Char) (t : List (List Char)) :
    joinWords (w :: w2 :: t) = w ++ ' ' :: joinWords (w2 :: t) := rfl

theorem joinWords_cons_of_word_cons (c : Char) (w : List Char)
    (t : List (List Char)) :
    joinWords ((c :: w) :: t) = c :: joinWords (w :: t) := by
  cases t with
  | nil => rfl
  | cons w2 t2 => rfl

theorem splitWsGo_joinWords :
    ∀ (n : Nat) (w : List Char) (t : List (List Char)),
      (joinWords (w :: t)).length = n → goodWords (w :: t) →
      (∀ cur, splitWsGo (joinWords (w :: t)) cur false = (cur.reverse ++ w) :: t) ∧
      splitWsGo (joinWords (w :: t)) [] true = w :: t := by
  intro n
  induction n using Nat.strong_induction_on with
  | _ n ih =>
    intro w t hn hgood
    have hgw := hgood w (List.mem_cons_self w t)
    have hgtail : ∀ x ∈ t, x ≠ [] ∧ ∀ c ∈ x, jsIsWhitespace c = false :=
      fun x hx => hgood x (List.mem_cons_of_mem w hx)
    constructor
    · intro cur
      cases t with
      | nil =>
        show splitWsGo (joinWords [w]) cur false = [cur.reverse ++ w]
        have hj : joinWords [w] = w ++ [] := by rw [List.append_nil]; rfl
        rw [hj, splitWsGo_append_word w [] cur hgw.2]
        show [(w.reverse ++ cur).reverse] = [cur.reverse ++ w]
        rw [List.reverse_append, List.reverse_reverse]
      | cons w2 t2 =>
        rw [joinWords_cons_cons, splitWsGo_append_word w _ cur hgw.2,
          splitWsGo_space]
        have hlt : (joinWords (w2 :: t2)).length < n := by
          rw [← hn, joinWords_cons_cons]
          simp only [List.length_append, List.length_cons]
          omega
        have h2 := (ih _ hlt w2 t2 rfl hgtail).2
        rw [h2, List.reverse_append, List.reverse_reverse]
    · obtain ⟨hwne, hwchars⟩ := hgw
      obtain ⟨c, w', hw'⟩ := List.exists_cons_of_ne_nil hwne
      subst hw'
      have hc : jsIsWhitespace c = false := hwchars c (List.mem_cons_self _ _)
      rw [joinWords_cons_of_word_cons]
      show (if jsIsWhitespace c then _ else splitWsGo (joinWords (w' :: t)) [c] false) = _
      rw [if_neg (by simp [hc])]
      by_cases hw'nil : w' = []
      · subst hw'nil
        cases t with
        | nil =>
          show splitWsGo [] [c] false = [[c]]
          rfl
        | cons w2 t2 =>
          rw [joinWords_cons_cons, List.nil_append, splitWsGo_space]
          have hlt : (joinWords (w2 :: t2)).length < n := by
            rw [← hn, joinWords_cons_of_word_cons, joinWords_cons_cons,
              List.nil_append]
            simp only [List.length_cons]
            omega
          have h2 := (ih _ hlt w2 t2 rfl hgtail).2
          rw [h2]
          rfl
      · have hgood' : goodWords (w' :: t) := by
          intro x hx
          rcases List.mem_cons.1 hx with hx | hx
          · subst hx
            exact ⟨hw'nil, fun ch hch => hwchars ch (List.mem_cons_of_mem _ hch)⟩
          · exact hgtail x hx
        have hlt : (joinWords (w' :: t)).length < n := by
          rw [← hn, joinWords_cons_of_word_cons]
          simp only [List.length_cons]
          omega
        have h1 := (ih _ hlt w' t rfl hgood').1 [c]
        rw [h1]
        rfl

theorem jsSplitWs_joinWords (w : List Char) (t : List (List Char))
    (h : goodWords (w :: t)) :
    jsSplitWs (String.mk (joinWords (w :: t))) = (w :: t).map String.mk := by
  unfold jsSplitWs
  have hdata : (String.mk (joinWords (w :: t))).data = joinWords (w :: t) := rfl
  rw [hdata, (splitWsGo_joinWords _ w t rfl h).1 []]
  rfl

theorem witWords_eq :
    witWords = List.replicate 4 'a' ::
      (List.replicate 998 (List.replicate 4 'a') ++ [List.replicate 5 'a']) := by
  show List.replicate 999 (List.replicate 4 'a') ++ [List.replicate 5 'a'] = _
  rw [show (999 : Nat) = 998 + 1 from rfl, List.replicate_succ, List.cons_append]

theorem goodWords_witWords :
    goodWords (List.replicate 4 'a' ::
      (List.replicate 998 (List.replicate 4 'a') ++ [List.replicate 5 'a'])) := by
  intro w hw
  have hw45 : w = List.replicate 4 'a' ∨ w = List.replicate 5 'a' := by
    rcases List.mem_cons.1 hw with h | h
    · exact Or.inl h
    · rcases List.mem_append.1 h with h | h
      · exact Or.inl (List.eq_of_mem_replicate h)
      · exact Or.inr (List.mem_singleton.1 h)
  rcases hw45 with h | h <;> subst h <;>
    exact ⟨by decide, fun c hc => by rw [List.eq_of_mem_replicate hc]; decide⟩

theorem jsSplitWs_witText_length : (jsSplitWs witText).length = 1000 := by
  have h : jsSplitWs witText =
      (List.replicate 4 'a' ::
        (List.replicate 998 (List.replicate 4 'a') ++ [List.replicate 5 'a'])).map
        String.mk := by
    show jsSplitWs (String.mk (joinWords witWords)) = _
    rw [witWords_eq]
    exact jsSplitWs_joinWords _ _ goodWords_witWords
  rw [h]
  simp only [List.length_map, List.length_cons, List.length_append,
    List.length_replicate, List.length_nil]

theorem joinWords_length_rep :
    ∀ n : Nat, (joinWords (List.replicate n (List.replicate 4 'a') ++
      [List.replicate 5 'a'])).length = 5 * n + 5 := by
  intro n
  induction n with
  | zero =>
    show (joinWords [List.replicate 5 'a']).length = 5
    rfl
  | succ n ih =>
    rw [List.replicate_succ, List.cons_append]
    obtain ⟨a, t, hat⟩ := List.exists_cons_of_ne_nil
      (by simp : List.replicate n (List.replicate 4 'a') ++ [List.replicate 5 'a'] ≠ [])
    rw [hat, joinWords_cons_cons, ← hat]
    simp only [List.length_append, List.length_cons, List.length_replicate]
    omega

theorem witText_length : witText.length = 5000 := by
  show (joinWords witWords).length = 5000
  show (joinWords (List.replicate 999 (List.replicate 4 'a') ++
    [List.replicate 5 'a'])).length = 5000
  rw [joinWords_length_rep 999]

/-! ## Auto-chunk grouping lemmas -/

theorem groupWords_flatten (wpc : Nat) :
    ∀ (ws acc : List String), ws ≠ [] →
      (groupWords wpc ws acc).flatten = acc ++ ws := by
  intro ws
  induction ws with
  | nil => intro acc h; exact absurd rfl h
  | cons w ws ih =>
    intro acc _
    by_cases hws : ws = []
    · subst hws
      simp [groupWords]
    · simp only [groupWords]
      split
      · simp [ih [] hws]
      · rw [ih (acc ++ [w]) hws]
        simp

theorem groupWords_singleton (wpc : Nat) (w : String) (acc : List String) :
    groupWords wpc [w] acc = [acc ++ [w]] := by
  simp [groupWords]

theorem groupWords_length (wpc : Nat) (hwpc : 0 < wpc) :
    ∀ (ws acc : List String), ws ≠ [] → acc.length < wpc →
      (groupWords wpc ws acc).length = (acc.length + ws.length - 1) / wpc + 1 := by
  intro ws
  induction ws with
  | nil => intro acc h _; exact absurd rfl h
  | cons w ws ih =>
    intro acc _ hacc
    simp only [List.length_cons]
    by_cases hws : ws = []
    · subst hws
      rw [groupWords_singleton]
      simp only [List.length_nil, List.length_cons]
      have h0 : acc.length + (0 + 1) - 1 = acc.length := by omega
      rw [h0, Nat.div_eq_of_lt hacc]
    · by_cases hcur : wpc ≤ (acc ++ [w]).length
      · have hcond : wpc ≤ (acc ++ [w]).length ∨ ws = [] := Or.inl hcur
        have hstep : groupWords wpc (w :: ws) acc =
            (acc ++ [w]) :: groupWords wpc ws [] := by
          simp only [groupWords, if_pos hcond]
        rw [hstep, List.length_cons, ih [] hws (by simpa using hwpc)]
        simp only [List.length_nil, Nat.zero_add]
        have hlen : (acc ++ [w]).length = acc.length + 1 := by simp
        rw [hlen] at hcur
        have hws1 : 1 ≤ ws.length := List.length_pos.2 hws
        have h1 : acc.length + (ws.length + 1) - 1 = (ws.length - 1) + wpc := by
          omega
        rw [h1, Nat.add_div_right _ hwpc]
      · have hcond : ¬(wpc ≤ (acc ++ [w]).length ∨ ws = []) := by
          push_neg
          exact ⟨Nat.lt_of_not_le hcur, hws⟩
        have hstep : groupWords wpc (w :: ws) acc = groupWords wpc ws (acc ++ [w]) := by
          simp only [groupWords, if_neg hcond]
        rw [hstep, ih (acc ++ [w]) hws (Nat.lt_of_not_le hcur)]
        have h1 : (acc ++ [w]).length + ws.length - 1 =
            acc.length + (ws.length + 1) - 1 := by
          simp only [List.length_append, List.length_cons, List.length_nil]
          omega
        rw [h1]

/-- Claim C5 amended: for a source text of 1000 whitespace-separated words
(the 5000-character scenario at the code's five-characters-per-word
heuristic), auto-chunking with chunk size 1000 produces exactly 5 chunks,
indexed contiguously 0–4, and the grouped words partition the source's word
list — no word lands in two chunks. -/
theorem auto_chunk_1000_words (text : String)
    (h : (jsSplitWs text).length = 1000) :
    handleAutoChunk text 1000 [] =
      mkChunksFrom 0 (groupWords 200 (jsSplitWs text) []) ∧
    (handleAutoChunk text 1000 []).length = 5 ∧
    (handleAutoChunk text 1000 []).map ChunkData.chunk_index = List.range 5 ∧
    (groupWords 200 (jsSplitWs text) []).flatten = jsSplitWs text := by
  have htext : text ≠ "" := by
    intro he
    rw [he] at h
    simp [jsSplitWs, splitWsGo] at h
  have hne : jsSplitWs text ≠ [] := by
    intro he
    rw [he] at h
    simp at h
  have hunfold : handleAutoChunk text 1000 [] =
      mkChunksFrom 0 (groupWords 200 (jsSplitWs text) []) := by
    unfold handleAutoChunk
    rw [if_neg htext]
  have hglen : (groupWords 200 (jsSplitWs text) []).length = 5 := by
    rw [groupWords_length 200 (by norm_num) _ [] hne (by norm_num), h]
    decide
  refine ⟨hunfold, ?_, ?_, groupWords_flatten 200 _ [] hne⟩
  · rw [hunfold, mkChunksFrom_length, hglen]
  · rw [hunfold, mkChunksFrom_map_index, hglen, List.range_eq_range']

/-- Claim C5 amended witness: the concrete 5000-character, 1000-word
source text. -/
theorem auto_chunk_1000_words_witness :
    (jsSplitWs witText).length = 1000 ∧ witText.length = 5000 ∧
    (handleAutoChunk witText 1000 []).length = 5 ∧
    (handleAutoChunk witText 1000 []).map ChunkData.chunk_index = List.range 5 :=
  ⟨jsSplitWs_witText_length, witText_length,
   (auto_chunk_1000_words witText jsSplitWs_witText_length).2.1,
   (auto_chunk_1000_words witText jsSplitWs_witText_length).2.2.1⟩

/-- Claim C5 counterexample: a 5000-character source text with no
whitespace splits into a single word, so auto-chunking with chunk size 1000
yields one chunk, not five — the chunk count depends on the word count, not
the character count. -/
theorem auto_chunk_5000_chars_counterexample :
    aText.length = 5000 ∧
    (handleAutoChunk aText 1000 []).length = 1 ∧
    (handleAutoChunk aText 1000 []).length ≠ 5 := by
  have hchars : ∀ c ∈ List.replicate 5000 'a', jsIsWhitespace c = false := by
    intro c hc
    rw [List.eq_of_mem_replicate hc]
    decide
  have hlen : aText.length = 5000 := by
    show (List.replicate 5000 'a').length = 5000
    rw [List.length_replicate]
  have htext : aText ≠ "" := by
    intro he
    have hcontra : (5000 : Nat) = ("" : String).length := by
      rw [← hlen, he]
    exact absurd hcontra (by decide)
  have hsplit : jsSplitWs aText = [String.mk (List.replicate 5000 'a')] := by
    unfold jsSplitWs
    show (splitWsGo (List.replicate 5000 'a') [] false).map String.mk = _
    have hw := splitWsGo_append_word (List.replicate 5000 'a') [] [] hchars
    rw [List.append_nil] at hw
    rw [hw]
    have hred : splitWsGo [] ((List.replicate 5000 'a').reverse ++ []) false =
        [((List.replicate 5000 'a').reverse ++ []).reverse] := rfl
    rw [hred, List.append_nil, List.reverse_reverse]
    rfl
  have hauto : handleAutoChunk aText 1000 [] =
      mkChunksFrom 0 (groupWords 200 [String.mk (List.replicate 5000 'a')] []) := by
    unfold handleAutoChunk
    rw [if_neg htext, hsplit]
  have hgrp : groupWords 200 [String.mk (List.replicate 5000 'a')] [] =
      [[String.mk (List.replicate 5000 'a')]] := by
    rw [groupWords_singleton]
    rfl
  refine ⟨hlen, ?_, ?_⟩
  · rw [hauto, hgrp, mkChunksFrom_length]
    rfl
  · rw [hauto, hgrp, mkChunksFrom_length]
    decide

end LegalDrishti
